import Mathlib

/-!
Verification of the resume-intake backend (`backend/services.py`, `backend/app.py`,
`backend/db.py`) against its natural-language specification.

The relational state of `db.py` is embedded as lists of rows; SQLAlchemy session
behaviour (pending objects, commit, rollback) is made explicit.  Python loops
become structural recursions, Python `dict.get` absence becomes `Option`,
Python floats on `total_experience_years` become `ℚ` (only order comparisons
with integer bucket edges matter), and raised exceptions become `Except`.
-/

/-! ## Data model (`backend/db.py`) -/

/-- A row of one of the reference-entity tables `skills`, `certifications`,
`companies`, `colleges`: an integer primary key and a (unique) name. -/
structure RefRow where
  id : Nat
  name : String
deriving Repr, DecidableEq

/-- A row of the `candidates` table.  The many-to-many association tables
`candidate_skills` and `candidate_certifications` are carried as the ORM
relationship lists `skillIds` / `certIds` (one association row per entry). -/
structure CandidateRow where
  id : Nat
  name : String
  email : Option String
  phone : Option String
  linkedin_url : Option String
  total_experience_years : Option ℚ
  city : Option String
  skillIds : List Nat
  certIds : List Nat
deriving Repr, DecidableEq

/-- A row of the `degrees` table. -/
structure DegreeRow where
  id : Nat
  degree_name : Option String
  passed_out_year : Option Int
  candidate_id : Option Nat
  college_id : Option Nat
deriving Repr, DecidableEq

/-- A row of the `experiences` table. -/
structure ExperienceRow where
  id : Nat
  total_years : Option ℚ
  role : Option String
  description : Option String
  candidate_id : Option Nat
  company_id : Option Nat
deriving Repr, DecidableEq

/-- The committed database state: one list per table, plus `nextId`, the
supply of fresh surrogate primary keys (every stored id is below it). -/
structure DB where
  candidates : List CandidateRow
  skills : List RefRow
  certifications : List RefRow
  companies : List RefRow
  colleges : List RefRow
  degrees : List DegreeRow
  experiences : List ExperienceRow
  nextId : Nat
deriving Repr, DecidableEq

/-- The empty database. -/
def DB.empty : DB := ⟨[], [], [], [], [], [], [], 0⟩

/-- Name of the reference row with primary key `i`, if stored in `tbl`
(`SELECT name FROM tbl WHERE id = i`). -/
def refName (tbl : List RefRow) (i : Nat) : Option String :=
  (tbl.find? (fun r => r.id == i)).map (fun r => r.name)

/-! ## Incoming structured records

`json_data` as produced by the LLM parsing stage: the fixed resume schema of
`ResumeModel` in `backend/services.py`. -/

/-- One entry of the record's `degrees` list. -/
structure DegreeData where
  college_name : Option String
  degree_name : Option String
  passed_out_year : Option Int
deriving Repr, DecidableEq

/-- One entry of the record's `experience` list. -/
structure ExperienceData where
  company_name : Option String
  total_years : Option ℚ
  role : Option String
  description : Option String
deriving Repr, DecidableEq

/-- The structured candidate record (`json_data`): `Option` models an absent
or null JSON field, lists model the nested arrays. -/
structure RecordJson where
  name : Option String
  email : Option String
  phone : Option String
  linkedin_url : Option String
  total_experience_years : Option ℚ
  city : Option String
  degrees : List DegreeData
  experience : List ExperienceData
  skills : List String
  certifications : List String
deriving Repr, DecidableEq

/-! ## Text extractor (`services.extract_text_from_file`, lines 56-89) -/

/-- What the extraction libraries see in the uploaded bytes: a PDF with a
text string per page, a DOCX with a text string per paragraph, or bytes the
library rejects with an exception carrying a message. -/
inductive FileContent where
  | pdfPages (pages : List String)
  | docxParas (paras : List String)
  | corrupt (msg : String)
deriving Repr, DecidableEq

/-- An uploaded file as the extractor receives it. -/
structure UploadFileModel where
  filename : String
  content : FileContent
deriving Repr, DecidableEq

/-- Python's `str.strip()`: drop whitespace from both ends (on the character
list, so that it computes inside the kernel). -/
def pyStrip (s : String) : String :=
  ⟨((s.data.dropWhile Char.isWhitespace).reverse.dropWhile Char.isWhitespace).reverse⟩

/-- Whether `suffix` ends `s` (on the character lists, so that it computes
inside the kernel). -/
def strSuffix (suffix s : String) : Bool :=
  decide (suffix.data <:+ s.data)

/-- `mimetypes.guess_type` restricted to the extensions the extractor
distinguishes: `.pdf`, `.docx`, legacy `.doc`; anything else guesses a type
the extractor does not handle, modelled as `none`. -/
def guessMime (filename : String) : Option String :=
  if strSuffix ".pdf" filename then some "application/pdf"
  else if strSuffix ".docx" filename then
    some "application/vnd.openxmlformats-officedocument.wordprocessingml.document"
  else if strSuffix ".doc" filename then some "application/msword"
  else none

/-- `services.extract_text_from_file`: for a PDF, `text` accumulates
`page.extract_text()` over all pages and an empty result returns `None`;
a `.doc` file returns `None`; a DOCX concatenates every paragraph plus a
newline (no emptiness check); any other type returns `None`; any library
exception is caught and returns `None`.  Content that does not match the
guessed type makes the library raise, also yielding `None`. -/
def extract_text_from_file (f : UploadFileModel) : Option String :=
  match guessMime f.filename with
  | some "application/pdf" =>
      match f.content with
      | FileContent.pdfPages pages =>
          let text := String.join pages
          if text = "" then none else some text
      | _ => none
  | some "application/vnd.openxmlformats-officedocument.wordprocessingml.document" =>
      match f.content with
      | FileContent.docxParas paras => some (String.join (paras.map (fun p => p ++ "\n")))
      | _ => none
  | some "application/msword" => none
  | _ => none

/-! ## Analytics (`services.get_analytics_data`, lines 169-185) -/

/-- The bucket `pd.cut` assigns to an experience value, with the source's
`bins = [0, 2, 5, 10, 50]` and `right=False`: the half-open intervals
`[0,2) [2,5) [5,10) [10,50)`; a value outside `[0,50)` falls in no bucket
(`pd.cut` yields `NaN`, which `value_counts` does not count). -/
def expBucket (y : ℚ) : Option String :=
  if 0 ≤ y ∧ y < 2 then some "0-2 years"
  else if 2 ≤ y ∧ y < 5 then some "2-5 years"
  else if 5 ≤ y ∧ y < 10 then some "5-10 years"
  else if 10 ≤ y ∧ y < 50 then some "10+ years"
  else none

/-- `services.get_analytics_data`: the skill histogram counts occurrences of
each name in `SELECT name FROM skills` (no join with the association table);
the experience histogram counts, per bucket label, the candidates whose
non-null `total_experience_years` falls in that bucket.  Both are returned as
count functions (a name or label absent from the dict counts 0). -/
def get_analytics_data (db : DB) : (String → Nat) × (String → Nat) :=
  ((fun name => ((db.skills.map (fun s => s.name)).count name),
    fun label =>
      (((db.candidates.filterMap (fun c => c.total_experience_years)).filterMap expBucket).count
        label)))

/-- The rows of the `candidate_skills` association table, as pairs
`(candidate_id, skill_id)` — one row per candidate-skill link. -/
def candidateSkillLinks (db : DB) : List (Nat × Nat) :=
  (db.candidates.map (fun c => c.skillIds.map (fun i => (c.id, i)))).flatten

/-- Modelled from the spec: the skill histogram the specification describes —
"one count per candidate-skill link", i.e. the number of association-table
rows whose skill bears the given name. -/
def specSkillLinkCount (db : DB) (name : String) : Nat :=
  ((candidateSkillLinks db).filter (fun p => refName db.skills p.2 == some name)).length

/-! ## Entity resolver (`services.get_or_create_no_commit`, lines 151-166)

The SQLAlchemy session is modelled explicitly: `committed` holds the rows the
transaction can query, `newObjs` is `db.new` (instances added but not yet
flushed — the session runs with `autoflush=False`, so a query never sees
them), and `counter` supplies fresh in-memory identities.  An instance's
identity is its `iid`; returning equal `SessObj` values models returning the
same in-memory instance. -/

/-- The four reference-entity models the upsert resolves by name. -/
inductive RefKind where
  | skill
  | certification
  | company
  | college
deriving Repr, DecidableEq

/-- An in-memory ORM instance of a reference entity. -/
structure SessObj where
  kind : RefKind
  iid : Nat
  name : String
deriving Repr, DecidableEq

/-- An ORM session as `get_or_create_no_commit` sees it. -/
structure OrmSession where
  committed : List SessObj
  newObjs : List SessObj
  counter : Nat
deriving Repr, DecidableEq

/-- `services.get_or_create_no_commit`: scan `db.new` for a pending instance
of the model matching the name; else query the committed rows; else construct
a new instance and `db.add` it (no commit). -/
def get_or_create_no_commit (s : OrmSession) (kind : RefKind) (name : String) :
    SessObj × OrmSession :=
  match s.newObjs.find? (fun o => o.kind == kind && o.name == name) with
  | some o => (o, s)
  | none =>
    match s.committed.find? (fun o => o.kind == kind && o.name == name) with
    | some o => (o, s)
    | none =>
      let o : SessObj := ⟨kind, s.counter, name⟩
      (o, { s with newObjs := s.newObjs ++ [o], counter := s.counter + 1 })

/-! ## Candidate upsert (`insert_json_data_into_db`)

The code lives in `backend/services.py` lines 186-260, textually stranded
inside `get_analytics_data` after its `return`; it is embedded here as the
function `app.py` line 105 tries to call.  The transaction body stages all
changes on a copy of the committed state (`upsertBody`); `commit` installs
the staged copy, `rollback` discards it. -/

/-- Find-or-create a reference row by name in a staged table: the staged view
of `get_or_create_no_commit`, where pending inserts already sit in the staged
table, so the `db.new` scan and the committed query collapse into one lookup
(within one transaction a name is never both pending and committed). -/
def getOrCreateRef (tbl : List RefRow) (n : Nat) (name : String) :
    RefRow × List RefRow × Nat :=
  match tbl.find? (fun r => r.name == name) with
  | some r => (r, tbl, n)
  | none =>
    let r : RefRow := ⟨n, name⟩
    (r, tbl ++ [r], n + 1)

/-- The skill/certification loops (lines 212-226): for each entry, Python
truthiness skips an empty string, the name is `strip()`ed and resolved.
Returns the resolved instances in order plus the grown table and counter. -/
def resolveNames (tbl : List RefRow) (n : Nat) : List String → List RefRow × List RefRow × Nat
  | [] => ([], tbl, n)
  | s :: rest =>
    if s = "" then resolveNames tbl n rest
    else
      let p := getOrCreateRef tbl n (pyStrip s)
      let q := resolveNames p.2.1 p.2.2 rest
      (p.1 :: q.1, q.2.1, q.2.2)

/-- The degrees loop (lines 229-238): entries without a `college_name` (or
with an empty one) are skipped; otherwise the college is resolved by its
stripped name and a fresh `Degree` row owned by candidate `cid` is added. -/
def buildDegrees (tbl : List RefRow) (n : Nat) (cid : Nat) :
    List DegreeData → List DegreeRow × List RefRow × Nat
  | [] => ([], tbl, n)
  | d :: rest =>
    match d.college_name with
    | none => buildDegrees tbl n cid rest
    | some cn =>
      if cn = "" then buildDegrees tbl n cid rest
      else
        let p := getOrCreateRef tbl n (pyStrip cn)
        let row : DegreeRow :=
          ⟨p.2.2, d.degree_name, d.passed_out_year, some cid, some p.1.id⟩
        let q := buildDegrees p.2.1 (p.2.2 + 1) cid rest
        (row :: q.1, q.2.1, q.2.2)

/-- The experiences loop (lines 241-251): entries without a `company_name`
(or with an empty one) are skipped; otherwise the company is resolved by its
stripped name and a fresh `Experience` row owned by candidate `cid` is added. -/
def buildExperiences (tbl : List RefRow) (n : Nat) (cid : Nat) :
    List ExperienceData → List ExperienceRow × List RefRow × Nat
  | [] => ([], tbl, n)
  | e :: rest =>
    match e.company_name with
    | none => buildExperiences tbl n cid rest
    | some cn =>
      if cn = "" then buildExperiences tbl n cid rest
      else
        let p := getOrCreateRef tbl n (pyStrip cn)
        let row : ExperienceRow :=
          ⟨p.2.2, e.total_years, e.role, e.description, some cid, some p.1.id⟩
        let q := buildExperiences p.2.1 (p.2.2 + 1) cid rest
        (row :: q.1, q.2.1, q.2.2)

/-- The error message raised by the missing-name check (line 192). -/
def nameRequiredMsg : String := "Name is required to create or update a candidate."

/-- The transaction body of `insert_json_data_into_db` (lines 191-251), as a
pure transformer from the committed state to the staged state (the
missing-name check of line 192 lives in the `upsertBody` wrapper below):

* find the candidate by exact name, or create one (its primary key is fresh);
* overwrite every scalar field unconditionally from the record;
* clear the skill/certification associations and bulk-delete the `Degree`
  and `Experience` rows with `candidate_id == candidate.id` — for a brand-new
  candidate the id is still SQL NULL, which matches no row, modelled here by
  the fresh id no stored row can carry;
* re-resolve and re-link skills and certifications (`list(set(...))`
  deduplicates instances, modelled by `List.dedup` on the resolved ids);
* rebuild the degree and experience rows from the record's lists. -/
def upsertStaged (db : DB) (j : RecordJson) (nm : String) : DB :=
  let pre := db.candidates.find? (fun c => c.name == nm)
  let cid := match pre with
    | some c => c.id
    | none => db.nextId
  let n0 := match pre with
    | some _ => db.nextId
    | none => db.nextId + 1
  let keptDegrees := match pre with
    | some c => db.degrees.filter (fun d => !(d.candidate_id == some c.id))
    | none => db.degrees
  let keptExps := match pre with
    | some c => db.experiences.filter (fun e => !(e.candidate_id == some c.id))
    | none => db.experiences
  let sk := resolveNames db.skills n0 j.skills
  let ce := resolveNames db.certifications sk.2.2 j.certifications
  let dg := buildDegrees db.colleges ce.2.2 cid j.degrees
  let ex := buildExperiences db.companies dg.2.2 cid j.experience
  let c' : CandidateRow :=
    { id := cid, name := nm, email := j.email, phone := j.phone,
      linkedin_url := j.linkedin_url,
      total_experience_years := j.total_experience_years, city := j.city,
      skillIds := (sk.1.map (fun r => r.id)).dedup,
      certIds := (ce.1.map (fun r => r.id)).dedup }
  let candidates' := match pre with
    | some _ => db.candidates.map (fun x => if x.name == nm then c' else x)
    | none => db.candidates ++ [c']
  { candidates := candidates', skills := sk.2.1, certifications := ce.2.1,
    companies := ex.2.1, colleges := dg.2.1,
    degrees := keptDegrees ++ dg.1, experiences := keptExps ++ ex.1,
    nextId := ex.2.2 }

/-- The transaction body wrapper: the missing-name check of line 192, then
the staged state. -/
def upsertBody (db : DB) (j : RecordJson) : Except String DB :=
  match j.name with
  | none => Except.error nameRequiredMsg
  | some nm =>
    if nm = "" then Except.error nameRequiredMsg
    else Except.ok (upsertStaged db j nm)

/-- Transaction-control events the session records. -/
inductive TxEvent where
  | commit
  | rollback
deriving Repr, DecidableEq

/-- `insert_json_data_into_db` (lines 190-260): run the body inside `try`,
end with the single `db.commit()`; on any exception `db.rollback()` (the
committed state is restored, staged changes are discarded) and `raise e`
re-raises the same exception to the caller.  `commitOk` is an oracle for
whether the database accepts the commit (e.g. a constraint violation).
Returns (outcome, committed state after the call, events issued). -/
def insert_json_data_into_db (commitOk : Bool) (db : DB) (j : RecordJson) :
    Except String Unit × DB × List TxEvent :=
  match upsertBody db j with
  | Except.error e => (Except.error e, db, [TxEvent.rollback])
  | Except.ok staged =>
    if commitOk then (Except.ok (), staged, [TxEvent.commit])
    else (Except.error "PersistenceError: commit failed", db, [TxEvent.rollback])

/-! ## The services module surface and the upload pipeline (`backend/app.py`) -/

/-- The top-level functions `backend/services.py` actually defines
(its only `def` statements at module scope). -/
def servicesDefs : List String :=
  ["extract_text_from_file", "get_data_from_gemini", "get_or_create_no_commit",
   "get_analytics_data"]

/-- Python attribute lookup on the `services` module: a defined name is
returned, a missing one raises `AttributeError`. -/
def lookupServicesAttr (name : String) : Except String String :=
  if name ∈ servicesDefs then Except.ok name
  else Except.error ("module 'services' has no attribute '" ++ name ++ "'")

/-- The `AttributeError` message produced by
`services.insert_json_data_into_db` at `app.py` line 105. -/
def insertAttrError : String :=
  "module 'services' has no attribute 'insert_json_data_into_db'"

/-- The statements of `get_analytics_data`'s body in source order
(`services.py` lines 169-260): the two aggregations, the `return`, and then
the whole orphaned upsert block (lines 186-260). -/
inductive GAStmt where
  | computeSkillDist
  | computeExpDist
  | returnResult
  | upsertBlock
deriving Repr, DecidableEq

/-- Source order of `get_analytics_data`'s body. -/
def get_analytics_data_body : List GAStmt :=
  [GAStmt.computeSkillDist, GAStmt.computeExpDist, GAStmt.returnResult, GAStmt.upsertBlock]

/-- Python sequential execution of a statement list: statements run in order
and a `return` ends the function, so whatever follows it never runs. -/
def executedStmts : List GAStmt → List GAStmt
  | [] => []
  | s :: rest => if s = GAStmt.returnResult then [s] else s :: executedStmts rest

instance {α β : Type} [DecidableEq α] [DecidableEq β] : DecidableEq (Except α β) := fun x y =>
  match x, y with
  | Except.error a, Except.error b =>
    if h : a = b then isTrue (by rw [h]) else isFalse (by simp [h])
  | Except.error _, Except.ok _ => isFalse (by simp)
  | Except.ok _, Except.error _ => isFalse (by simp)
  | Except.ok a, Except.ok b =>
    if h : a = b then isTrue (by rw [h]) else isFalse (by simp [h])

/-- One uploaded file of a batch, together with the outcome each pipeline
stage would produce for it: the save step (`None` = saved, `some e` = raised
`e`), the extractor's return value, the parse step (`Except.error` = the
threadpool call raised, `Except.ok none` = no parsed data) and the persist
step's outcome. -/
structure FileSpec where
  filename : String
  saveError : Option String
  extractResult : Option String
  parseOutcome : Except String (Option RecordJson)
  persistResult : Except String Unit
deriving Repr, DecidableEq

/-- What the `upload_resumes` loop body (`app.py` lines 66-120) does with one
file: an empty filename is skipped with no record; otherwise the first
failing stage appends its message to `errors` and `continue`s, and a file
surviving all four stages appends its filename to `processed_files`.
The guards mirror the source: `if not resume_text` catches both `None` and
the empty string. -/
inductive FileOutcome where
  | skipped
  | ok (filename : String)
  | failed (msg : String)
deriving Repr, DecidableEq

/-- The loop body of `upload_resumes` for a single file. -/
def processOne (f : FileSpec) : FileOutcome :=
  if f.filename = "" then FileOutcome.skipped
  else
    match f.saveError with
    | some e => FileOutcome.failed ("Could not save " ++ f.filename ++ ": " ++ e)
    | none =>
      match f.extractResult with
      | none => FileOutcome.failed ("Could not extract text from " ++ f.filename)
      | some t =>
        if t = "" then FileOutcome.failed ("Could not extract text from " ++ f.filename)
        else
          match f.parseOutcome with
          | Except.error e =>
              FileOutcome.failed ("Gemini parse error on " ++ f.filename ++ ": " ++ e)
          | Except.ok none => FileOutcome.failed ("No parsed data for " ++ f.filename)
          | Except.ok (some _) =>
            match f.persistResult with
            | Except.error e =>
                FileOutcome.failed ("DB insert error for " ++ f.filename ++ ": " ++ e)
            | Except.ok _ => FileOutcome.ok f.filename

/-- The batch summary `upload_resumes` returns. -/
structure BatchResult where
  processed_files : List String
  errors : List String
deriving Repr, DecidableEq

/-- Accumulate one file's outcome into the batch summary. -/
def uploadStep (acc : BatchResult) (f : FileSpec) : BatchResult :=
  match processOne f with
  | FileOutcome.skipped => acc
  | FileOutcome.ok nm => { acc with processed_files := acc.processed_files ++ [nm] }
  | FileOutcome.failed m => { acc with errors := acc.errors ++ [m] }

/-- `app.upload_resumes`: process the files one at a time, sequentially,
accumulating `processed_files` and `errors`. -/
def upload_resumes (files : List FileSpec) : BatchResult :=
  files.foldl uploadStep ⟨[], []⟩

/-- A file fails at some stage: saving, extraction (no text or empty text),
parsing (exception or no result), or persistence. -/
def failsAtSomeStage (f : FileSpec) : Prop :=
  f.saveError ≠ none ∨ f.extractResult = none ∨ f.extractResult = some "" ∨
    (∃ e, f.parseOutcome = Except.error e) ∨ f.parseOutcome = Except.ok none ∨
    (∃ e, f.persistResult = Except.error e)

/-! ## Views and invariants used to state the upsert properties -/

/-- Bound on an optional foreign key: holds when the key, if present, is
below `n` (an absent key imposes nothing). -/
def optLT (o : Option Nat) (n : Nat) : Bool :=
  match o with
  | none => true
  | some i => i < n

/-- Well-formedness of a reference table relative to the id supply `n`:
ids are below `n`, ids are distinct, and names are distinct (the schema's
unique constraint on `name`). -/
def WFt (tbl : List RefRow) (n : Nat) : Prop :=
  (∀ r ∈ tbl, r.id < n) ∧ (tbl.map (fun r => r.id)).Nodup
    ∧ (tbl.map (fun r => r.name)).Nodup

/-- Database well-formedness: every table satisfies its uniqueness
constraints and every stored id (primary or foreign) is below `nextId`. -/
def WFdb (db : DB) : Prop :=
  WFt db.skills db.nextId ∧ WFt db.certifications db.nextId ∧
    WFt db.companies db.nextId ∧ WFt db.colleges db.nextId ∧
    (∀ c ∈ db.candidates, c.id < db.nextId) ∧
    (db.candidates.map (fun c => c.id)).Nodup ∧
    (db.candidates.map (fun c => c.name)).Nodup ∧
    (∀ d ∈ db.degrees, d.id < db.nextId ∧ optLT d.candidate_id db.nextId = true) ∧
    (∀ e ∈ db.experiences, e.id < db.nextId ∧ optLT e.candidate_id db.nextId = true)

/-- The skill names the upsert stages for a record, in order: nonempty
entries, stripped, deduplicated (`list(set(...))` deduplicates by instance,
and equal names resolve to the same instance). -/
def recordSkillNames (j : RecordJson) : List String :=
  ((j.skills.filter (fun s => ¬ s = "")).map pyStrip).dedup

/-- Certification names the upsert stages for a record. -/
def recordCertNames (j : RecordJson) : List String :=
  ((j.certifications.filter (fun s => ¬ s = "")).map pyStrip).dedup

/-- Content view (degree name, graduation year, college name) of the degree
rows the upsert stages for a record: entries without a college name are
skipped. -/
def recordDegreeViews (j : RecordJson) : List (Option String × Option Int × String) :=
  j.degrees.filterMap (fun d =>
    match d.college_name with
    | none => none
    | some cn => if cn = "" then none else some (d.degree_name, d.passed_out_year, pyStrip cn))

/-- Content view (duration, role, description, company name) of the
experience rows the upsert stages for a record. -/
def recordExpViews (j : RecordJson) :
    List (Option ℚ × Option String × Option String × String) :=
  j.experience.filterMap (fun e =>
    match e.company_name with
    | none => none
    | some cn => if cn = "" then none
                 else some (e.total_years, e.role, e.description, pyStrip cn))

/-- The stored degree rows owned by candidate `cid`, projected to content
(the referenced college resolved to its name). -/
def candidateDegreeViews (db : DB) (cid : Nat) :
    List (Option String × Option Int × Option String) :=
  (db.degrees.filter (fun d => d.candidate_id == some cid)).map
    (fun d => (d.degree_name, d.passed_out_year,
               d.college_id.bind (fun i => refName db.colleges i)))

/-- The stored experience rows owned by candidate `cid`, projected to
content. -/
def candidateExpViews (db : DB) (cid : Nat) :
    List (Option ℚ × Option String × Option String × Option String) :=
  (db.experiences.filter (fun e => e.candidate_id == some cid)).map
    (fun e => (e.total_years, e.role, e.description,
               e.company_id.bind (fun i => refName db.companies i)))

/-- The observable state of the candidate named `nm`: scalar fields plus the
four relationship sets projected to names/contents (surrogate keys
excluded). -/
def candView (db : DB) (nm : String) :
    Option ((Option String × Option String × Option String × Option ℚ × Option String)
      × List (Option String) × List (Option String)
      × List (Option String × Option Int × Option String)
      × List (Option ℚ × Option String × Option String × Option String)) :=
  (db.candidates.find? (fun c => c.name == nm)).map (fun c =>
    ((c.email, c.phone, c.linkedin_url, c.total_experience_years, c.city),
     c.skillIds.map (fun i => refName db.skills i),
     c.certIds.map (fun i => refName db.certifications i),
     candidateDegreeViews db c.id,
     candidateExpViews db c.id))

/-- The candidate view a successful upsert of `j` produces, determined by the
record alone. -/
def recordView (j : RecordJson) :
    ((Option String × Option String × Option String × Option ℚ × Option String)
      × List (Option String) × List (Option String)
      × List (Option String × Option Int × Option String)
      × List (Option ℚ × Option String × Option String × Option String)) :=
  ((j.email, j.phone, j.linkedin_url, j.total_experience_years, j.city),
   (recordSkillNames j).map some,
   (recordCertNames j).map some,
   (recordDegreeViews j).map (fun v => (v.1, v.2.1, some v.2.2)),
   (recordExpViews j).map (fun v => (v.1, v.2.1, v.2.2.1, some v.2.2.2)))

/-! ## Concrete states used as counterexamples and witnesses -/

/-- Two candidates both linked to the single stored skill "Python". -/
def skillHistDb : DB :=
  { candidates := [⟨0, "Alice", none, none, none, none, none, [2], []⟩,
                   ⟨1, "Bob", none, none, none, none, none, [2], []⟩],
    skills := [⟨2, "Python"⟩], certifications := [], companies := [], colleges := [],
    degrees := [], experiences := [], nextId := 3 }

/-- One candidate with 50 years of experience. -/
def dbFifty : DB :=
  { candidates := [⟨0, "Carol", none, none, none, some 50, none, [], []⟩],
    skills := [], certifications := [], companies := [], colleges := [],
    degrees := [], experiences := [], nextId := 1 }

/-- A minimal parsed record. -/
def recA : RecordJson :=
  ⟨some "Ann", none, none, none, none, none, [], [], [], []⟩

/-- A file that passes every stage. -/
def fsGoodA : FileSpec :=
  ⟨"a.pdf", none, some "long resume text", Except.ok (some recA), Except.ok ()⟩

/-- A second file that passes every stage. -/
def fsGoodB : FileSpec :=
  ⟨"b.docx", none, some "another resume text", Except.ok (some recA), Except.ok ()⟩

/-- A file whose extraction yields no text. -/
def fsFailK : FileSpec :=
  ⟨"k.pdf", none, none, Except.ok none, Except.ok ()⟩

/-- A file whose persist stage raises the `AttributeError` the missing
`services.insert_json_data_into_db` produces. -/
def fsPersistFail : FileSpec :=
  ⟨"c.pdf", none, some "long resume text", Except.ok (some recA),
   Except.error insertAttrError⟩

/-- An existing candidate "Ann" holding the single stored skill "Cobol". -/
def db7 : DB :=
  { candidates := [⟨0, "Ann", none, none, none, none, none, [1], []⟩],
    skills := [⟨1, "Cobol"⟩], certifications := [], companies := [], colleges := [],
    degrees := [], experiences := [], nextId := 2 }

/-- A record for "Ann" carrying a different skill list. -/
def j7 : RecordJson :=
  ⟨some "Ann", none, none, none, none, none, [], [], ["Python"], []⟩


/-! ## Helper lemmas -/

theorem goc_found_new (s : OrmSession) (k : RefKind) (n : String) (o : SessObj)
    (h : s.newObjs.find? (fun o => o.kind == k && o.name == n) = some o) :
    get_or_create_no_commit s k n = (o, s) := by
  simp [get_or_create_no_commit, h]

theorem goc_found_committed (s : OrmSession) (k : RefKind) (n : String) (o : SessObj)
    (h1 : s.newObjs.find? (fun o => o.kind == k && o.name == n) = none)
    (h2 : s.committed.find? (fun o => o.kind == k && o.name == n) = some o) :
    get_or_create_no_commit s k n = (o, s) := by
  simp [get_or_create_no_commit, h1, h2]

theorem goc_create (s : OrmSession) (k : RefKind) (n : String)
    (h1 : s.newObjs.find? (fun o => o.kind == k && o.name == n) = none)
    (h2 : s.committed.find? (fun o => o.kind == k && o.name == n) = none) :
    get_or_create_no_commit s k n =
      (⟨k, s.counter, n⟩,
       { s with newObjs := s.newObjs ++ [⟨k, s.counter, n⟩], counter := s.counter + 1 }) := by
  simp [get_or_create_no_commit, h1, h2]

/-! ## Claims about the analytics projections -/

/-- Claim C2 counterexample: with one stored skill "Python" linked to two
candidates (two `candidate_skills` rows), the histogram reports 1, not the
link count 2 — `db.query(Skill.name)` reads the `skills` table alone. -/
theorem skill_histogram_not_link_count :
    (get_analytics_data skillHistDb).1 "Python" = 1
    ∧ specSkillLinkCount skillHistDb "Python" = 2
    ∧ (get_analytics_data skillHistDb).1 "Python"
        ≠ specSkillLinkCount skillHistDb "Python" := by
  refine ⟨?_, ?_, ?_⟩ <;> decide

/-- Claim C2 (amended): the skill histogram maps each skill name to the
number of `skills`-table rows bearing it — under the schema's uniqueness of
skill names every stored name counts exactly 1 — and it does not depend on
the candidates or on the candidate-skill association table at all. -/
theorem skill_histogram_counts_rows (db db' : DB) (name : String)
    (hnodup : (db.skills.map (fun s => s.name)).Nodup)
    (hmem : name ∈ db.skills.map (fun s => s.name))
    (hsk : db'.skills = db.skills) :
    (get_analytics_data db).1 name = 1
    ∧ (get_analytics_data db').1 name = (get_analytics_data db).1 name := by
  constructor
  · exact List.count_eq_one_of_mem hnodup hmem
  · simp [get_analytics_data, hsk]

/-- Witness for the amended C2 at a concrete store. -/
theorem skill_histogram_counts_rows_witness :
    (get_analytics_data skillHistDb).1 "Python" = 1 :=
  (skill_histogram_counts_rows skillHistDb skillHistDb "Python" (by decide) (by decide) rfl).1

/-- Claim C3: the lower bounds of the buckets are inclusive (2 falls in
"2-5 years" and 10 in "10+ years") as claimed, but the last bin of
`bins = [0, 2, 5, 10, 50]` ends at 50, although the code's own comment and
label say "10+": a candidate with 50 years falls in no bucket at all, so the
histogram of a store holding exactly that candidate reports 0 under
"10+ years". -/
theorem exp_histogram_truncated_at_fifty :
    expBucket 2 = some "2-5 years"
    ∧ expBucket 10 = some "10+ years"
    ∧ expBucket 50 = none
    ∧ (get_analytics_data dbFifty).2 "10+ years" = 0 := by
  refine ⟨?_, ?_, ?_, ?_⟩ <;> decide

/-! ## Claim about the entity resolver -/

/-- Claim C6: resolving the same (kind, name) twice within one transaction
returns the same in-memory instance and leaves the session unchanged the
second time — the second resolve finds the instance the first one staged —
and the pending inserts never hold two instances of that kind and name (at
most `max` of what was already pending and one). -/
theorem resolve_twice_same_instance (s : OrmSession) (k : RefKind) (n : String) :
    (get_or_create_no_commit (get_or_create_no_commit s k n).2 k n).1
      = (get_or_create_no_commit s k n).1
    ∧ (get_or_create_no_commit (get_or_create_no_commit s k n).2 k n).2
      = (get_or_create_no_commit s k n).2
    ∧ ((get_or_create_no_commit s k n).2.newObjs.filter
         (fun o => o.kind == k && o.name == n)).length
        ≤ max ((s.newObjs.filter (fun o => o.kind == k && o.name == n)).length) 1 := by
  cases h1 : s.newObjs.find? (fun o => o.kind == k && o.name == n) with
  | some o =>
    rw [goc_found_new s k n o h1, goc_found_new s k n o h1]
    exact ⟨rfl, rfl, le_max_left _ _⟩
  | none =>
    cases h2 : s.committed.find? (fun o => o.kind == k && o.name == n) with
    | some o =>
      rw [goc_found_committed s k n o h1 h2, goc_found_committed s k n o h1 h2]
      exact ⟨rfl, rfl, le_max_left _ _⟩
    | none =>
      rw [goc_create s k n h1 h2]
      have hnew : (s.newObjs ++ [SessObj.mk k s.counter n]).find?
          (fun o => o.kind == k && o.name == n) = some ⟨k, s.counter, n⟩ := by
        rw [List.find?_append, h1]
        simp
      rw [goc_found_new _ k n _ hnew]
      refine ⟨rfl, rfl, ?_⟩
      have hempty : s.newObjs.filter (fun o => o.kind == k && o.name == n) = [] := by
        rw [List.filter_eq_nil_iff]
        intro a ha
        have := List.find?_eq_none.mp h1 a ha
        simpa using this
      simp [List.filter_append, hempty]

/-! ## Claims about the text extractor -/

/-- Claim C10 counterexample: a legacy `.doc` file, an image-only PDF and a
corrupt PDF — the claim's `UnsupportedFormat`, `NoTextExtracted` and
`ExtractionError` cases — all return the very same value `none`, carrying no
message, so the three failure kinds are not distinguishable to the caller. -/
theorem extractor_failures_indistinguishable :
    extract_text_from_file ⟨"legacy.doc", FileContent.docxParas ["text"]⟩ = none
    ∧ extract_text_from_file ⟨"scan.pdf", FileContent.pdfPages ["", ""]⟩ = none
    ∧ extract_text_from_file ⟨"broken.pdf", FileContent.corrupt "EOF marker not found"⟩ = none := by
  refine ⟨?_, ?_, ?_⟩ <;> decide

/-- Claim C10 (amended): for a PDF the extractor returns the concatenation
of every page's text, or `none` when that concatenation is empty; a legacy
`.doc` file returns `none`; a type other than PDF/DOCX returns `none`; and an
extraction-library error returns `none` — every failure kind collapses to the
same `none`, with the distinguishing message only printed, not returned. -/
theorem extract_text_cases (f : UploadFileModel) (pages : List String) (m : String) :
    (guessMime f.filename = some "application/pdf" → f.content = FileContent.pdfPages pages →
        extract_text_from_file f =
          if String.join pages = "" then none else some (String.join pages))
    ∧ (guessMime f.filename = some "application/msword" → extract_text_from_file f = none)
    ∧ (guessMime f.filename = none → extract_text_from_file f = none)
    ∧ (f.content = FileContent.corrupt m → extract_text_from_file f = none) := by
  refine ⟨?_, ?_, ?_, ?_⟩
  · intro h1 h2; simp [extract_text_from_file, h1, h2]
  · intro h1; simp [extract_text_from_file, h1]
  · intro h1; simp [extract_text_from_file, h1]
  · intro h2
    cases hm : guessMime f.filename with
    | none => simp [extract_text_from_file, hm]
    | some mt =>
      simp only [extract_text_from_file, hm, h2]
      split <;> rfl

/-- Witness for the amended C10: a two-page PDF with text. -/
theorem extract_text_cases_witness :
    extract_text_from_file ⟨"resume.pdf", FileContent.pdfPages ["Hello ", "World"]⟩
      = some "Hello World" := by
  have h := (extract_text_cases ⟨"resume.pdf", FileContent.pdfPages ["Hello ", "World"]⟩
    ["Hello ", "World"] "").1 (by decide) rfl
  simpa using h

/-! ## Claims about the upsert's transaction discipline -/

/-- Claim C4: whatever the record and the pre-state, if the upsert raises —
including a persistence failure at commit time — the committed state after
the call is exactly the state before it (full rollback, no commit issued,
a rollback issued), and a body error reaches the caller unchanged (`raise e`
re-raises the underlying cause); if the upsert succeeds, the transaction
events are exactly one commit. -/
theorem upsert_transaction_atomic (commitOk : Bool) (db : DB) (j : RecordJson) :
    (∀ e, (insert_json_data_into_db commitOk db j).1 = Except.error e →
        (insert_json_data_into_db commitOk db j).2.1 = db
        ∧ TxEvent.rollback ∈ (insert_json_data_into_db commitOk db j).2.2
        ∧ (insert_json_data_into_db commitOk db j).2.2.count TxEvent.commit = 0)
    ∧ ((insert_json_data_into_db commitOk db j).1 = Except.ok () →
        (insert_json_data_into_db commitOk db j).2.2 = [TxEvent.commit])
    ∧ (∀ e, upsertBody db j = Except.error e →
        (insert_json_data_into_db commitOk db j).1 = Except.error e) := by
  unfold insert_json_data_into_db
  cases h : upsertBody db j with
  | error e => refine ⟨?_, ?_, ?_⟩ <;> simp_all
  | ok staged =>
    by_cases hc : commitOk <;> refine ⟨?_, ?_, ?_⟩ <;> simp_all

/-- Witness for C4 at a concrete failing call: a record with no name against
the empty database rolls back to the empty database. -/
theorem upsert_transaction_atomic_witness :
    (insert_json_data_into_db true DB.empty
        ⟨none, none, none, none, none, none, [], [], [], []⟩).2.1 = DB.empty
    ∧ TxEvent.rollback ∈ (insert_json_data_into_db true DB.empty
        ⟨none, none, none, none, none, none, [], [], [], []⟩).2.2 :=
  have h := (upsert_transaction_atomic true DB.empty
    ⟨none, none, none, none, none, none, [], [], [], []⟩).1 nameRequiredMsg (by decide)
  ⟨h.1, h.2.1⟩

/-- Claim C5: a record whose name is absent or empty makes the upsert fail
with the `ValueError` of line 192 before anything is staged: the body itself
errors, the committed state is untouched, and only a rollback is issued. -/
theorem missing_name_rejected_before_write (commitOk : Bool) (db : DB) (j : RecordJson)
    (h : j.name = none ∨ j.name = some "") :
    upsertBody db j = Except.error nameRequiredMsg
    ∧ insert_json_data_into_db commitOk db j
        = (Except.error nameRequiredMsg, db, [TxEvent.rollback]) := by
  have hb : upsertBody db j = Except.error nameRequiredMsg := by
    rcases h with h | h <;> simp [upsertBody, h]
  exact ⟨hb, by simp [insert_json_data_into_db, hb]⟩

/-- Witness for C5: empty-named record against the empty database. -/
theorem missing_name_rejected_before_write_witness :
    insert_json_data_into_db true DB.empty
        ⟨some "", some "a@b.c", none, none, none, none, [], [], ["Python"], []⟩
      = (Except.error nameRequiredMsg, DB.empty, [TxEvent.rollback]) :=
  (missing_name_rejected_before_write true DB.empty
    ⟨some "", some "a@b.c", none, none, none, none, [], [], ["Python"], []⟩
    (Or.inr rfl)).2

/-! ## Helper lemmas for the upload batch loop -/

theorem upload_foldl (files : List FileSpec) : ∀ acc : BatchResult,
    files.foldl uploadStep acc
      = ⟨acc.processed_files ++ (upload_resumes files).processed_files,
         acc.errors ++ (upload_resumes files).errors⟩ := by
  induction files with
  | nil => intro acc; simp [upload_resumes]
  | cons f rest ih =>
    intro acc
    have hinit : upload_resumes (f :: rest) = rest.foldl uploadStep (uploadStep ⟨[], []⟩ f) := rfl
    rw [List.foldl_cons, ih (uploadStep acc f), hinit, ih (uploadStep ⟨[], []⟩ f)]
    unfold uploadStep
    cases processOne f <;> simp

theorem upload_append (xs ys : List FileSpec) :
    upload_resumes (xs ++ ys)
      = ⟨(upload_resumes xs).processed_files ++ (upload_resumes ys).processed_files,
         (upload_resumes xs).errors ++ (upload_resumes ys).errors⟩ := by
  have h : upload_resumes (xs ++ ys) = (xs ++ ys).foldl uploadStep ⟨[], []⟩ := rfl
  rw [h, List.foldl_append]
  have h2 : xs.foldl uploadStep ⟨[], []⟩ = upload_resumes xs := rfl
  rw [upload_foldl ys (xs.foldl uploadStep ⟨[], []⟩), h2]

theorem processed_mem (files : List FileSpec) (f : FileSpec) (nm : String)
    (hf : f ∈ files) (h : processOne f = FileOutcome.ok nm) :
    nm ∈ (upload_resumes files).processed_files := by
  induction files with
  | nil => cases hf
  | cons a rest ih =>
    have hone : upload_resumes (a :: rest) = rest.foldl uploadStep (uploadStep ⟨[], []⟩ a) := rfl
    rw [hone, upload_foldl rest (uploadStep ⟨[], []⟩ a)]
    rcases List.mem_cons.mp hf with rfl | hmem
    · simp [uploadStep, h]
    · have := ih hmem
      unfold uploadStep
      cases processOne a <;> simp_all

theorem processOne_ok_shape (f : FileSpec) (nm : String)
    (h : processOne f = FileOutcome.ok nm) :
    f.persistResult = Except.ok () ∧ nm = f.filename := by
  unfold processOne at h
  by_cases hfn : f.filename = "" <;> simp [hfn] at h
  rcases hs : f.saveError with _ | e <;> rw [hs] at h <;> try simp at h
  rcases he : f.extractResult with _ | t <;> rw [he] at h <;> try simp at h
  by_cases ht : t = "" <;> simp [ht] at h
  rcases hp : f.parseOutcome with e | j <;> rw [hp] at h <;> try simp at h
  rcases j with _ | j <;> simp at h
  rcases hq : f.persistResult with e | u <;> rw [hq] at h <;> simp at h
  exact ⟨congrArg Except.ok (Unit.ext u ()), h.symm⟩

theorem processOne_failed_form (f : FileSpec) (hfn : ¬ f.filename = "")
    (hfail : failsAtSomeStage f) :
    ∃ pre post, processOne f = FileOutcome.failed (pre ++ f.filename ++ post) := by
  unfold processOne
  rw [if_neg hfn]
  rcases hs : f.saveError with _ | e
  case some =>
    exact ⟨"Could not save ", ": " ++ e, by simp [String.append_assoc]⟩
  dsimp only
  rcases he : f.extractResult with _ | t
  case none =>
    exact ⟨"Could not extract text from ", "", by simp⟩
  dsimp only
  by_cases ht : t = ""
  · rw [if_pos ht]
    exact ⟨"Could not extract text from ", "", by simp⟩
  rw [if_neg ht]
  rcases hp : f.parseOutcome with e | j
  · exact ⟨"Gemini parse error on ", ": " ++ e, by simp [String.append_assoc]⟩
  rcases j with _ | j
  · exact ⟨"No parsed data for ", "", by simp⟩
  dsimp only
  rcases hq : f.persistResult with e | u
  · exact ⟨"DB insert error for ", ": " ++ e, by simp [String.append_assoc]⟩
  exfalso
  rcases hfail with h | h | h | ⟨e2, h⟩ | h | ⟨e2, h⟩ <;> simp_all

theorem processOne_not_ok (f : FileSpec) (e : String)
    (h : f.persistResult = Except.error e) (nm : String) :
    processOne f ≠ FileOutcome.ok nm := by
  intro hok
  have h2 := (processOne_ok_shape f nm hok).1
  rw [h] at h2
  cases h2

theorem upload_no_ok_processed (files : List FileSpec)
    (h : ∀ f ∈ files, ∀ nm, processOne f ≠ FileOutcome.ok nm) :
    (upload_resumes files).processed_files = [] := by
  induction files with
  | nil => rfl
  | cons a rest ih =>
    have h1 : upload_resumes (a :: rest) = rest.foldl uploadStep (uploadStep ⟨[], []⟩ a) := rfl
    rw [h1, upload_foldl rest (uploadStep ⟨[], []⟩ a)]
    have ha := h a (List.mem_cons_self a rest)
    have hrest := ih (fun f hf => h f (List.mem_cons_of_mem a hf))
    cases hpo : processOne a with
    | skipped => simp [uploadStep, hpo, hrest]
    | ok nm => exact absurd hpo (ha nm)
    | failed m => simp [uploadStep, hpo, hrest]

/-! ## Claims about the upload batch loop -/

/-- Claim C9: in any batch where file `k` (with a real filename) fails at
some stage, the batch result is the result for the files before `k`, plus
one error message naming `k`'s filename, plus the result for the files after
`k` — the failure never aborts the batch — and every file the loop processes
successfully has its filename reported in `processed_files`. -/
theorem batch_failure_isolated (xs ys : List FileSpec) (k : FileSpec)
    (hk : ¬ k.filename = "") (hfail : failsAtSomeStage k) :
    ∃ pre post,
      (upload_resumes (xs ++ k :: ys)).errors
        = (upload_resumes xs).errors
            ++ ((pre ++ k.filename ++ post) :: (upload_resumes ys).errors)
      ∧ (upload_resumes (xs ++ k :: ys)).processed_files
          = (upload_resumes xs).processed_files ++ (upload_resumes ys).processed_files
      ∧ (∀ f ∈ xs ++ k :: ys, ∀ nm, processOne f = FileOutcome.ok nm →
            nm ∈ (upload_resumes (xs ++ k :: ys)).processed_files) := by
  obtain ⟨pre, post, hform⟩ := processOne_failed_form k hk hfail
  have hcons : upload_resumes (k :: ys) = ys.foldl uploadStep (uploadStep ⟨[], []⟩ k) := rfl
  have hk2 : uploadStep ⟨[], []⟩ k = ⟨[], [pre ++ k.filename ++ post]⟩ := by
    simp [uploadStep, hform]
  refine ⟨pre, post, ?_, ?_, ?_⟩
  · rw [upload_append xs (k :: ys), hcons, upload_foldl ys (uploadStep ⟨[], []⟩ k), hk2]
    simp
  · rw [upload_append xs (k :: ys), hcons, upload_foldl ys (uploadStep ⟨[], []⟩ k), hk2]
    simp
  · intro f hf nm h
    exact processed_mem (xs ++ k :: ys) f nm hf h

/-- Witness for C9: a three-file batch whose middle file fails extraction. -/
theorem batch_failure_isolated_witness :
    ∃ pre post,
      (upload_resumes [fsGoodA, fsFailK, fsGoodB]).errors
        = (upload_resumes [fsGoodA]).errors
            ++ ((pre ++ fsFailK.filename ++ post) :: (upload_resumes [fsGoodB]).errors)
      ∧ (upload_resumes [fsGoodA, fsFailK, fsGoodB]).processed_files
          = (upload_resumes [fsGoodA]).processed_files
              ++ (upload_resumes [fsGoodB]).processed_files
      ∧ (∀ f ∈ [fsGoodA, fsFailK, fsGoodB], ∀ nm, processOne f = FileOutcome.ok nm →
            nm ∈ (upload_resumes [fsGoodA, fsFailK, fsGoodB]).processed_files) :=
  batch_failure_isolated [fsGoodA] [fsGoodB] fsFailK (by decide) (Or.inr (Or.inl rfl))

/-- Claim C1: `backend/services.py` defines no `insert_json_data_into_db`
(the upsert block sits after the unconditional `return` of
`get_analytics_data` and never executes), so the attribute lookup the upload
handler performs raises `AttributeError`; consequently in any batch whose
persist calls produce that error, no file is ever recorded in
`processed_files`, and every file reaching the persist stage is recorded in
the errors list with a message naming it. -/
theorem upsert_call_never_executable (files : List FileSpec)
    (hreal : ∀ f ∈ files, f.persistResult = Except.error insertAttrError) :
    "insert_json_data_into_db" ∉ servicesDefs
    ∧ lookupServicesAttr "insert_json_data_into_db" = Except.error insertAttrError
    ∧ GAStmt.upsertBlock ∉ executedStmts get_analytics_data_body
    ∧ (upload_resumes files).processed_files = []
    ∧ (∀ f ∈ files, ¬ f.filename = "" →
        ∃ pre post, processOne f = FileOutcome.failed (pre ++ f.filename ++ post)) := by
  refine ⟨by decide, by decide, by decide, ?_, ?_⟩
  · exact upload_no_ok_processed files (fun f hf nm => processOne_not_ok f _ (hreal f hf) nm)
  · intro f hf hfn
    exact processOne_failed_form f hfn
      (Or.inr (Or.inr (Or.inr (Or.inr (Or.inr ⟨_, hreal f hf⟩)))))

/-- Witness for C1: a single file that survives extraction and parsing and
hits the missing persist function. -/
theorem upsert_call_never_executable_witness :
    "insert_json_data_into_db" ∉ servicesDefs
    ∧ (upload_resumes [fsPersistFail]).processed_files = []
    ∧ ∃ pre post,
        processOne fsPersistFail
          = FileOutcome.failed (pre ++ fsPersistFail.filename ++ post) := by
  have h := upsert_call_never_executable [fsPersistFail]
    (fun f hf => by rcases List.mem_singleton.mp hf with rfl; rfl)
  exact ⟨h.1, h.2.2.2.1, h.2.2.2.2 fsPersistFail (List.mem_singleton.mpr rfl) (by decide)⟩

theorem WFt_mono (tbl : List RefRow) (n m : Nat) (h : WFt tbl n) (hnm : n ≤ m) :
    WFt tbl m :=
  ⟨fun r hr => lt_of_lt_of_le (h.1 r hr) hnm, h.2.1, h.2.2⟩

theorem find?_id_of_mem (tbl : List RefRow) (hnd : (tbl.map (fun r => r.id)).Nodup)
    (r : RefRow) (hr : r ∈ tbl) :
    tbl.find? (fun x => x.id == r.id) = some r := by
  induction tbl with
  | nil => cases hr
  | cons a rest ih =>
    rcases List.mem_cons.mp hr with rfl | hmem
    · exact List.find?_cons_of_pos rest (by simp)
    · have hne : ¬ (a.id == r.id) = true := by
        intro hh
        have : a.id ∈ rest.map (fun r => r.id) := by
          rw [eq_of_beq hh]
          exact List.mem_map_of_mem _ hmem
        exact (List.nodup_cons.mp hnd).1 this
      rw [List.find?_cons_of_neg rest hne]
      exact ih (List.nodup_cons.mp hnd).2 hmem

theorem refName_prefix (tbl suf : List RefRow) (hnd : (tbl.map (fun r => r.id)).Nodup)
    (r : RefRow) (hr : r ∈ tbl) :
    refName (tbl ++ suf) r.id = some r.name := by
  unfold refName
  rw [List.find?_append, find?_id_of_mem tbl hnd r hr]
  rfl

theorem refName_self (tbl : List RefRow) (hnd : (tbl.map (fun r => r.id)).Nodup)
    (r : RefRow) (hr : r ∈ tbl) :
    refName tbl r.id = some r.name := by
  have h := refName_prefix tbl [] hnd r hr
  simpa using h

theorem getOrCreateRef_spec (tbl : List RefRow) (n : Nat) (name : String) (h : WFt tbl n) :
    (getOrCreateRef tbl n name).1.name = name
    ∧ (getOrCreateRef tbl n name).1 ∈ (getOrCreateRef tbl n name).2.1
    ∧ n ≤ (getOrCreateRef tbl n name).2.2
    ∧ (∃ suf, (getOrCreateRef tbl n name).2.1 = tbl ++ suf)
    ∧ WFt (getOrCreateRef tbl n name).2.1 (getOrCreateRef tbl n name).2.2 := by
  unfold getOrCreateRef
  cases hf : tbl.find? (fun r => r.name == name) with
  | some r =>
    have hname := List.find?_some hf
    have hmem := List.mem_of_find?_eq_some hf
    exact ⟨eq_of_beq hname, hmem, le_refl n, ⟨[], by simp⟩, h⟩
  | none =>
    refine ⟨rfl, ?_, Nat.le_succ n, ⟨[⟨n, name⟩], rfl⟩, ?_, ?_, ?_⟩
    · simp
    · intro r hr
      rcases List.mem_append.mp hr with hm | hm
      · exact lt_of_lt_of_le (h.1 r hm) (Nat.le_succ n)
      · rcases List.mem_singleton.mp hm with rfl
        exact Nat.lt_succ_self n
    · rw [List.map_append]
      apply List.Nodup.append h.2.1 (by simp)
      intro x hx hy
      have hxn : x = n := by simpa using hy
      rcases List.mem_map.mp hx with ⟨r, hr, hid⟩
      have hlt : x < n := hid ▸ h.1 r hr
      rw [hxn] at hlt
      exact lt_irrefl n hlt
    · rw [List.map_append]
      apply List.Nodup.append h.2.2 (by simp)
      intro x hx hy
      have hxn : x = name := by simpa using hy
      rcases List.mem_map.mp hx with ⟨r, hr, hnm⟩
      have := List.find?_eq_none.mp hf r hr
      simp at this
      exact this (by rw [hnm, hxn])

theorem resolveNames_spec (names : List String) : ∀ (tbl : List RefRow) (n : Nat),
    WFt tbl n →
    WFt (resolveNames tbl n names).2.1 (resolveNames tbl n names).2.2
    ∧ n ≤ (resolveNames tbl n names).2.2
    ∧ (∃ suf, (resolveNames tbl n names).2.1 = tbl ++ suf)
    ∧ (resolveNames tbl n names).1.map (fun r => r.name)
        = (names.filter (fun s => ¬ s = "")).map pyStrip
    ∧ (∀ r ∈ (resolveNames tbl n names).1, r ∈ (resolveNames tbl n names).2.1) := by
  induction names with
  | nil =>
    intro tbl n h
    exact ⟨h, le_refl n, ⟨[], by simp [resolveNames]⟩, rfl, by simp [resolveNames]⟩
  | cons s rest ih =>
    intro tbl n h
    by_cases hs : s = ""
    · have hred : resolveNames tbl n (s :: rest) = resolveNames tbl n rest := by
        simp only [resolveNames]
        rw [if_pos hs]
      rw [hred]
      obtain ⟨w1, w2, w3, w4, w5⟩ := ih tbl n h
      exact ⟨w1, w2, w3, by simp [List.filter_cons, hs, w4], w5⟩
    · obtain ⟨g1, g2, g3, ⟨suf1, hsuf1⟩, g5⟩ := getOrCreateRef_spec tbl n (pyStrip s) h
      obtain ⟨w1, w2, ⟨suf2, hsuf2⟩, w4, w5⟩ :=
        ih (getOrCreateRef tbl n (pyStrip s)).2.1 (getOrCreateRef tbl n (pyStrip s)).2.2 g5
      have hred : resolveNames tbl n (s :: rest)
          = ((getOrCreateRef tbl n (pyStrip s)).1
              :: (resolveNames (getOrCreateRef tbl n (pyStrip s)).2.1
                    (getOrCreateRef tbl n (pyStrip s)).2.2 rest).1,
             (resolveNames (getOrCreateRef tbl n (pyStrip s)).2.1
                (getOrCreateRef tbl n (pyStrip s)).2.2 rest).2.1,
             (resolveNames (getOrCreateRef tbl n (pyStrip s)).2.1
                (getOrCreateRef tbl n (pyStrip s)).2.2 rest).2.2) := by
        simp only [resolveNames]
        rw [if_neg hs]
      rw [hred]
      refine ⟨w1, le_trans g3 w2,
        ⟨suf1 ++ suf2, by rw [hsuf2, hsuf1, List.append_assoc]⟩, ?_, ?_⟩
      · simp [List.filter_cons, hs, w4, g1]
      · intro r hr
        rcases List.mem_cons.mp hr with rfl | hm
        · rw [hsuf2]
          exact List.mem_append_left _ g2
        · exact w5 r hm

theorem buildDegrees_spec (ds : List DegreeData) (cid : Nat) : ∀ (tbl : List RefRow) (n : Nat),
    WFt tbl n →
    WFt (buildDegrees tbl n cid ds).2.1 (buildDegrees tbl n cid ds).2.2
    ∧ n ≤ (buildDegrees tbl n cid ds).2.2
    ∧ (∃ suf, (buildDegrees tbl n cid ds).2.1 = tbl ++ suf)
    ∧ (∀ row ∈ (buildDegrees tbl n cid ds).1,
        row.candidate_id = some cid ∧ n ≤ row.id ∧ row.id < (buildDegrees tbl n cid ds).2.2)
    ∧ (buildDegrees tbl n cid ds).1.map (fun row =>
          (row.degree_name, row.passed_out_year,
           row.college_id.bind (fun i => refName (buildDegrees tbl n cid ds).2.1 i)))
        = ds.filterMap (fun d =>
            match d.college_name with
            | none => none
            | some cn => if cn = "" then none
                         else some (d.degree_name, d.passed_out_year, some (pyStrip cn))) := by
  induction ds with
  | nil =>
    intro tbl n h
    exact ⟨h, le_refl n, ⟨[], by simp [buildDegrees]⟩, by simp [buildDegrees], by
      simp [buildDegrees]⟩
  | cons d rest ih =>
    intro tbl n h
    rcases d with ⟨ocn, dn, yr⟩
    cases ocn with
    | none =>
      have hred : buildDegrees tbl n cid (⟨none, dn, yr⟩ :: rest)
          = buildDegrees tbl n cid rest := by
        simp only [buildDegrees]
      rw [hred]
      obtain ⟨w1, w2, w3, w4, w5⟩ := ih tbl n h
      exact ⟨w1, w2, w3, w4, by simp [w5]⟩
    | some cn =>
      by_cases hcn : cn = ""
      · have hred : buildDegrees tbl n cid (⟨some cn, dn, yr⟩ :: rest)
            = buildDegrees tbl n cid rest := by
          simp only [buildDegrees]
          rw [if_pos hcn]
        rw [hred]
        obtain ⟨w1, w2, w3, w4, w5⟩ := ih tbl n h
        exact ⟨w1, w2, w3, w4, by simp [w5, hcn]⟩
      · obtain ⟨g1, g2, g3, ⟨suf1, hsuf1⟩, g5⟩ := getOrCreateRef_spec tbl n (pyStrip cn) h
        have g5' := WFt_mono _ _ _ g5 (Nat.le_succ _)
        obtain ⟨w1, w2, ⟨suf2, hsuf2⟩, w4, w5⟩ :=
          ih (getOrCreateRef tbl n (pyStrip cn)).2.1
            ((getOrCreateRef tbl n (pyStrip cn)).2.2 + 1) g5'
        have hred : buildDegrees tbl n cid (⟨some cn, dn, yr⟩ :: rest)
            = (⟨(getOrCreateRef tbl n (pyStrip cn)).2.2, dn, yr, some cid,
                some (getOrCreateRef tbl n (pyStrip cn)).1.id⟩
                :: (buildDegrees (getOrCreateRef tbl n (pyStrip cn)).2.1
                      ((getOrCreateRef tbl n (pyStrip cn)).2.2 + 1) cid rest).1,
               (buildDegrees (getOrCreateRef tbl n (pyStrip cn)).2.1
                  ((getOrCreateRef tbl n (pyStrip cn)).2.2 + 1) cid rest).2.1,
               (buildDegrees (getOrCreateRef tbl n (pyStrip cn)).2.1
                  ((getOrCreateRef tbl n (pyStrip cn)).2.2 + 1) cid rest).2.2) := by
          simp only [buildDegrees]
          rw [if_neg hcn]
        rw [hred]
        refine ⟨w1, le_trans g3 (le_trans (Nat.le_succ _) w2),
          ⟨suf1 ++ suf2, by rw [hsuf2, hsuf1, List.append_assoc]⟩, ?_, ?_⟩
        · intro row hrow
          rcases List.mem_cons.mp hrow with rfl | hm
          · exact ⟨rfl, g3, lt_of_lt_of_le (Nat.lt_succ_self _) w2⟩
          · obtain ⟨u1, u2, u3⟩ := w4 row hm
            exact ⟨u1, le_trans g3 (le_trans (Nat.le_succ _) u2), u3⟩
        · have hrn : refName (buildDegrees (getOrCreateRef tbl n (pyStrip cn)).2.1
                ((getOrCreateRef tbl n (pyStrip cn)).2.2 + 1) cid rest).2.1
              (getOrCreateRef tbl n (pyStrip cn)).1.id = some (pyStrip cn) := by
            rw [hsuf2, refName_prefix _ suf2 g5.2.1 _ g2, g1]
          simp only [List.map_cons, List.filterMap_cons]
          simp [hcn, hrn, w5]

theorem buildExperiences_spec (es : List ExperienceData) (cid : Nat) :
    ∀ (tbl : List RefRow) (n : Nat),
    WFt tbl n →
    WFt (buildExperiences tbl n cid es).2.1 (buildExperiences tbl n cid es).2.2
    ∧ n ≤ (buildExperiences tbl n cid es).2.2
    ∧ (∃ suf, (buildExperiences tbl n cid es).2.1 = tbl ++ suf)
    ∧ (∀ row ∈ (buildExperiences tbl n cid es).1,
        row.candidate_id = some cid ∧ n ≤ row.id ∧ row.id < (buildExperiences tbl n cid es).2.2)
    ∧ (buildExperiences tbl n cid es).1.map (fun row =>
          (row.total_years, row.role, row.description,
           row.company_id.bind (fun i => refName (buildExperiences tbl n cid es).2.1 i)))
        = es.filterMap (fun e =>
            match e.company_name with
            | none => none
            | some cn => if cn = "" then none
                         else some (e.total_years, e.role, e.description, some (pyStrip cn))) := by
  induction es with
  | nil =>
    intro tbl n h
    exact ⟨h, le_refl n, ⟨[], by simp [buildExperiences]⟩, by simp [buildExperiences], by
      simp [buildExperiences]⟩
  | cons e rest ih =>
    intro tbl n h
    rcases e with ⟨ocn, ty, rl, ds⟩
    cases ocn with
    | none =>
      have hred : buildExperiences tbl n cid (⟨none, ty, rl, ds⟩ :: rest)
          = buildExperiences tbl n cid rest := by
        simp only [buildExperiences]
      rw [hred]
      obtain ⟨w1, w2, w3, w4, w5⟩ := ih tbl n h
      exact ⟨w1, w2, w3, w4, by simp [w5]⟩
    | some cn =>
      by_cases hcn : cn = ""
      · have hred : buildExperiences tbl n cid (⟨some cn, ty, rl, ds⟩ :: rest)
            = buildExperiences tbl n cid rest := by
          simp only [buildExperiences]
          rw [if_pos hcn]
        rw [hred]
        obtain ⟨w1, w2, w3, w4, w5⟩ := ih tbl n h
        exact ⟨w1, w2, w3, w4, by simp [w5, hcn]⟩
      · obtain ⟨g1, g2, g3, ⟨suf1, hsuf1⟩, g5⟩ := getOrCreateRef_spec tbl n (pyStrip cn) h
        have g5' := WFt_mono _ _ _ g5 (Nat.le_succ _)
        obtain ⟨w1, w2, ⟨suf2, hsuf2⟩, w4, w5⟩ :=
          ih (getOrCreateRef tbl n (pyStrip cn)).2.1
            ((getOrCreateRef tbl n (pyStrip cn)).2.2 + 1) g5'
        have hred : buildExperiences tbl n cid (⟨some cn, ty, rl, ds⟩ :: rest)
            = (⟨(getOrCreateRef tbl n (pyStrip cn)).2.2, ty, rl, ds, some cid,
                some (getOrCreateRef tbl n (pyStrip cn)).1.id⟩
                :: (buildExperiences (getOrCreateRef tbl n (pyStrip cn)).2.1
                      ((getOrCreateRef tbl n (pyStrip cn)).2.2 + 1) cid rest).1,
               (buildExperiences (getOrCreateRef tbl n (pyStrip cn)).2.1
                  ((getOrCreateRef tbl n (pyStrip cn)).2.2 + 1) cid rest).2.1,
               (buildExperiences (getOrCreateRef tbl n (pyStrip cn)).2.1
                  ((getOrCreateRef tbl n (pyStrip cn)).2.2 + 1) cid rest).2.2) := by
          simp only [buildExperiences]
          rw [if_neg hcn]
        rw [hred]
        refine ⟨w1, le_trans g3 (le_trans (Nat.le_succ _) w2),
          ⟨suf1 ++ suf2, by rw [hsuf2, hsuf1, List.append_assoc]⟩, ?_, ?_⟩
        · intro row hrow
          rcases List.mem_cons.mp hrow with rfl | hm
          · exact ⟨rfl, g3, lt_of_lt_of_le (Nat.lt_succ_self _) w2⟩
          · obtain ⟨u1, u2, u3⟩ := w4 row hm
            exact ⟨u1, le_trans g3 (le_trans (Nat.le_succ _) u2), u3⟩
        · have hrn : refName (buildExperiences (getOrCreateRef tbl n (pyStrip cn)).2.1
                ((getOrCreateRef tbl n (pyStrip cn)).2.2 + 1) cid rest).2.1
              (getOrCreateRef tbl n (pyStrip cn)).1.id = some (pyStrip cn) := by
            rw [hsuf2, refName_prefix _ suf2 g5.2.1 _ g2, g1]
          simp only [List.map_cons, List.filterMap_cons]
          simp [hcn, hrn, w5]

theorem map_refName_dedup (tbl : List RefRow)
    (hnd1 : (tbl.map (fun r => r.id)).Nodup) (hnd2 : (tbl.map (fun r => r.name)).Nodup) :
    ∀ refs : List RefRow, (∀ r ∈ refs, r ∈ tbl) →
    ((refs.map (fun r => r.id)).dedup).map (fun i => refName tbl i)
      = ((refs.map (fun r => r.name)).dedup).map some := by
  intro refs
  induction refs with
  | nil => intro _; rfl
  | cons r rest ih =>
    intro hsub
    have hr : r ∈ tbl := hsub r (List.mem_cons_self r rest)
    have hrest : ∀ x ∈ rest, x ∈ tbl := fun x hx => hsub x (List.mem_cons_of_mem r hx)
    have key : r.id ∈ rest.map (fun r => r.id) ↔ r.name ∈ rest.map (fun r => r.name) := by
      constructor
      · intro hmem
        rcases List.mem_map.mp hmem with ⟨x, hx, hid⟩
        have hxr : x = r := List.inj_on_of_nodup_map hnd1 (hrest x hx) hr hid
        rw [← hxr]
        exact List.mem_map_of_mem _ hx
      · intro hmem
        rcases List.mem_map.mp hmem with ⟨x, hx, hnm⟩
        have hxr : x = r := List.inj_on_of_nodup_map hnd2 (hrest x hx) hr hnm
        rw [← hxr]
        exact List.mem_map_of_mem _ hx
    simp only [List.map_cons]
    by_cases hmem : r.id ∈ rest.map (fun r => r.id)
    · rw [List.dedup_cons_of_mem hmem, List.dedup_cons_of_mem (key.mp hmem)]
      exact ih hrest
    · rw [List.dedup_cons_of_not_mem hmem,
        List.dedup_cons_of_not_mem (fun hc => hmem (key.mpr hc))]
      simp only [List.map_cons]
      rw [refName_self tbl hnd1 r hr, ih hrest]

theorem find?_map_replace (l : List CandidateRow) (nm : String) (c' : CandidateRow)
    (hc' : c'.name = nm) (c : CandidateRow)
    (h : l.find? (fun x => x.name == nm) = some c) :
    (l.map (fun x => if x.name == nm then c' else x)).find? (fun x => x.name == nm)
      = some c' := by
  induction l with
  | nil => cases h
  | cons a rest ih =>
    by_cases ha : (a.name == nm) = true
    · simp only [List.map_cons, if_pos ha]
      exact List.find?_cons_of_pos _ (by simp [hc'])
    · rw [List.find?_cons_of_neg rest (by simpa using ha)] at h
      simp only [List.map_cons, if_neg ha]
      rw [List.find?_cons_of_neg _ (by simpa using ha)]
      exact ih h

theorem mem_name_eq_find (l : List CandidateRow) (hnd : (l.map (fun x => x.name)).Nodup)
    (nm : String) (c : CandidateRow) (hfind : l.find? (fun x => x.name == nm) = some c)
    (x : CandidateRow) (hx : x ∈ l) (hxn : x.name = nm) : x = c := by
  have hc := List.mem_of_find?_eq_some hfind
  have hcn : c.name = nm := by
    have h2 := List.find?_some hfind
    simpa using h2
  exact List.inj_on_of_nodup_map hnd hx hc (by rw [hxn, hcn])

theorem map_replace_names (l : List CandidateRow) (nm : String) (c' : CandidateRow)
    (hc' : c'.name = nm) :
    (l.map (fun x => if x.name == nm then c' else x)).map (fun x => x.name)
      = l.map (fun x => x.name) := by
  rw [List.map_map]
  apply List.map_congr_left
  intro x hx
  by_cases hxn : (x.name == nm) = true
  · simp only [Function.comp, if_pos hxn]
    rw [hc', eq_of_beq hxn]
  · simp only [Function.comp, if_neg hxn]

theorem map_replace_ids (l : List CandidateRow) (nm : String) (c' c : CandidateRow)
    (hnd : (l.map (fun x => x.name)).Nodup)
    (hfind : l.find? (fun x => x.name == nm) = some c)
    (hid : c'.id = c.id) :
    (l.map (fun x => if x.name == nm then c' else x)).map (fun x => x.id)
      = l.map (fun x => x.id) := by
  rw [List.map_map]
  apply List.map_congr_left
  intro x hx
  by_cases hxn : (x.name == nm) = true
  · have hxc : x = c := mem_name_eq_find l hnd nm c hfind x hx (eq_of_beq hxn)
    simp only [Function.comp, if_pos hxn]
    rw [hid, hxc]
  · simp only [Function.comp, if_neg hxn]

theorem filter_not_filter {α : Type} (l : List α) (p : α → Bool) :
    (l.filter (fun a => !(p a))).filter p = [] := by
  rw [List.filter_filter]
  simp

theorem optLT_mono (o : Option Nat) (n m : Nat) (h : optLT o n = true) (hnm : n ≤ m) :
    optLT o m = true := by
  cases o with
  | none => rfl
  | some i =>
    simp [optLT] at h ⊢
    omega

theorem optLT_ne_beq (o : Option Nat) (n : Nat) (h : optLT o n = true) :
    (o == some n) = false := by
  cases o with
  | none => rfl
  | some i =>
    simp [optLT] at h
    simp [Nat.ne_of_lt h]

theorem upsertStaged_found_red (db : DB) (j : RecordJson) (nm : String)
    (c : CandidateRow) (hpre : db.candidates.find? (fun x => x.name == nm) = some c) :
    upsertStaged db j nm =
      { candidates := db.candidates.map (fun x => if x.name == nm then
          { id := c.id, name := nm, email := j.email, phone := j.phone,
            linkedin_url := j.linkedin_url,
            total_experience_years := j.total_experience_years, city := j.city,
            skillIds := (((resolveNames db.skills db.nextId j.skills).1.map
              (fun r => r.id)).dedup),
            certIds := (((resolveNames db.certifications
              (resolveNames db.skills db.nextId j.skills).2.2 j.certifications).1.map
              (fun r => r.id)).dedup) } else x),
        skills := (resolveNames db.skills db.nextId j.skills).2.1,
        certifications := (resolveNames db.certifications
          (resolveNames db.skills db.nextId j.skills).2.2 j.certifications).2.1,
        companies := (buildExperiences db.companies
          (buildDegrees db.colleges
            (resolveNames db.certifications
              (resolveNames db.skills db.nextId j.skills).2.2 j.certifications).2.2
            c.id j.degrees).2.2 c.id j.experience).2.1,
        colleges := (buildDegrees db.colleges
          (resolveNames db.certifications
            (resolveNames db.skills db.nextId j.skills).2.2 j.certifications).2.2
          c.id j.degrees).2.1,
        degrees := db.degrees.filter (fun d => !(d.candidate_id == some c.id))
          ++ (buildDegrees db.colleges
            (resolveNames db.certifications
              (resolveNames db.skills db.nextId j.skills).2.2 j.certifications).2.2
            c.id j.degrees).1,
        experiences := db.experiences.filter (fun e => !(e.candidate_id == some c.id))
          ++ (buildExperiences db.companies
            (buildDegrees db.colleges
              (resolveNames db.certifications
                (resolveNames db.skills db.nextId j.skills).2.2 j.certifications).2.2
              c.id j.degrees).2.2 c.id j.experience).1,
        nextId := (buildExperiences db.companies
          (buildDegrees db.colleges
            (resolveNames db.certifications
              (resolveNames db.skills db.nextId j.skills).2.2 j.certifications).2.2
            c.id j.degrees).2.2 c.id j.experience).2.2 } := by
  simp only [upsertStaged, hpre]

theorem upsertStaged_spec_found (db : DB) (j : RecordJson) (nm : String) (hwf : WFdb db)
    (c : CandidateRow) (hpre : db.candidates.find? (fun x => x.name == nm) = some c) :
    candView (upsertStaged db j nm) nm = some (recordView j)
    ∧ WFdb (upsertStaged db j nm)
    ∧ (∃ c', (upsertStaged db j nm).candidates.find? (fun x => x.name == nm) = some c'
        ∧ c'.id = c.id ∧ c'.name = nm)
    ∧ (∀ d ∈ db.degrees, d.candidate_id = some c.id → d ∉ (upsertStaged db j nm).degrees)
    ∧ (∀ e ∈ db.experiences, e.candidate_id = some c.id →
        e ∉ (upsertStaged db j nm).experiences) := by
  obtain ⟨hwsk, hwce, hwco, hwcl, hcand, hcidnd, hcnmnd, hdeg, hexp⟩ := hwf
  have hcmem : c ∈ db.candidates := List.mem_of_find?_eq_some hpre
  obtain ⟨sk1, sk2, ⟨sksuf, hsksuf⟩, sk4, sk5⟩ :=
    resolveNames_spec j.skills db.skills db.nextId hwsk
  obtain ⟨ce1, ce2, ⟨cesuf, hcesuf⟩, ce4, ce5⟩ :=
    resolveNames_spec j.certifications db.certifications
      (resolveNames db.skills db.nextId j.skills).2.2 (WFt_mono _ _ _ hwce sk2)
  obtain ⟨dg1, dg2, ⟨dgsuf, hdgsuf⟩, dg4, dg5⟩ :=
    buildDegrees_spec j.degrees c.id db.colleges
      (resolveNames db.certifications
        (resolveNames db.skills db.nextId j.skills).2.2 j.certifications).2.2
      (WFt_mono _ _ _ hwcl (le_trans sk2 ce2))
  obtain ⟨ex1, ex2, ⟨exsuf, hexsuf⟩, ex4, ex5⟩ :=
    buildExperiences_spec j.experience c.id db.companies
      (buildDegrees db.colleges
        (resolveNames db.certifications
          (resolveNames db.skills db.nextId j.skills).2.2 j.certifications).2.2
        c.id j.degrees).2.2
      (WFt_mono _ _ _ hwco (le_trans sk2 (le_trans ce2 dg2)))
  rw [upsertStaged_found_red db j nm c hpre]
  set sk := resolveNames db.skills db.nextId j.skills with hskdef
  set ce := resolveNames db.certifications sk.2.2 j.certifications with hcedef
  set dg := buildDegrees db.colleges ce.2.2 c.id j.degrees with hdgdef
  set ex := buildExperiences db.companies dg.2.2 c.id j.experience with hexdef
  set cnd : CandidateRow := ({ id := c.id, name := nm, email := j.email, phone := j.phone, linkedin_url := j.linkedin_url, total_experience_years := j.total_experience_years, city := j.city, skillIds := (sk.1.map (fun r => r.id)).dedup, certIds := (ce.1.map (fun r => r.id)).dedup } : CandidateRow) with hcnddef
  have hcndnm : cnd.name = nm := rfl
  have hcndid : cnd.id = c.id := rfl
  have hn1 : db.nextId ≤ ex.2.2 := le_trans sk2 (le_trans ce2 (le_trans dg2 ex2))
  have hfind2 : (db.candidates.map (fun x => if x.name == nm then cnd else x)).find?
      (fun x => x.name == nm) = some cnd :=
    find?_map_replace db.candidates nm cnd hcndnm c hpre
  have hskills : ((sk.1.map (fun r => r.id)).dedup).map (fun i => refName sk.2.1 i)
      = (recordSkillNames j).map some := by
    have h := map_refName_dedup sk.2.1 sk1.2.1 sk1.2.2 sk.1 sk5
    rw [sk4] at h
    exact h
  have hcerts : ((ce.1.map (fun r => r.id)).dedup).map (fun i => refName ce.2.1 i)
      = (recordCertNames j).map some := by
    have h := map_refName_dedup ce.2.1 ce1.2.1 ce1.2.2 ce.1 ce5
    rw [ce4] at h
    exact h
  have hkeptd : (db.degrees.filter (fun d => !(d.candidate_id == some c.id))).filter
      (fun d => d.candidate_id == some c.id) = [] := filter_not_filter _ _
  have hnewd : dg.1.filter (fun d => d.candidate_id == some c.id) = dg.1 :=
    List.filter_eq_self.mpr (fun row hrow => by rw [(dg4 row hrow).1]; simp)
  have hkepte : (db.experiences.filter (fun e => !(e.candidate_id == some c.id))).filter
      (fun e => e.candidate_id == some c.id) = [] := filter_not_filter _ _
  have hnewe : ex.1.filter (fun e => e.candidate_id == some c.id) = ex.1 :=
    List.filter_eq_self.mpr (fun row hrow => by rw [(ex4 row hrow).1]; simp)
  have hwrapdeg : (recordDegreeViews j).map (fun v => (v.1, v.2.1, some v.2.2))
      = j.degrees.filterMap (fun d =>
          match d.college_name with
          | none => none
          | some cn => if cn = "" then none
                       else some (d.degree_name, d.passed_out_year, some (pyStrip cn))) := by
    unfold recordDegreeViews
    rw [List.map_filterMap]
    congr 1
    funext d
    cases hdc : d.college_name with
    | none => simp
    | some cn => by_cases hcn : cn = "" <;> simp [hcn]
  have hwrapexp : (recordExpViews j).map (fun v => (v.1, v.2.1, v.2.2.1, some v.2.2.2))
      = j.experience.filterMap (fun e =>
          match e.company_name with
          | none => none
          | some cn => if cn = "" then none
                       else some (e.total_years, e.role, e.description, some (pyStrip cn))) := by
    unfold recordExpViews
    rw [List.map_filterMap]
    congr 1
    funext e
    cases hdc : e.company_name with
    | none => simp
    | some cn => by_cases hcn : cn = "" <;> simp [hcn]
  refine ⟨?_, ⟨?_, ?_, ?_, ?_, ?_, ?_, ?_, ?_, ?_⟩, ⟨cnd, hfind2, hcndid, hcndnm⟩,
    ?_, ?_⟩
  · -- candView
    simp only [candView]
    rw [hfind2]
    refine congrArg some ?_
    simp only [recordView, candidateDegreeViews, candidateExpViews]
    rw [List.filter_append, hkeptd, hnewd, List.nil_append,
      List.filter_append, hkepte, hnewe, List.nil_append]
    rw [dg5, ex5, ← hwrapdeg, ← hwrapexp]
    rw [hskills, hcerts]
  · exact WFt_mono _ _ _ sk1 (le_trans ce2 (le_trans dg2 ex2))
  · exact WFt_mono _ _ _ ce1 (le_trans dg2 ex2)
  · exact ex1
  · exact WFt_mono _ _ _ dg1 ex2
  · intro y hy
    rcases List.mem_map.mp hy with ⟨x, hx, rfl⟩
    by_cases hxn : (x.name == nm) = true
    · simp only [if_pos hxn]
      exact lt_of_lt_of_le (hcand c hcmem) hn1
    · simp only [if_neg hxn]
      exact lt_of_lt_of_le (hcand x hx) hn1
  · rw [map_replace_ids db.candidates nm cnd c hcnmnd hpre hcndid]
    exact hcidnd
  · rw [map_replace_names db.candidates nm cnd hcndnm]
    exact hcnmnd
  · intro d hd
    rcases List.mem_append.mp hd with hk | hn
    · obtain ⟨hmem, _⟩ := List.mem_filter.mp hk
      obtain ⟨hb1, hb2⟩ := hdeg d hmem
      exact ⟨lt_of_lt_of_le hb1 hn1, optLT_mono _ _ _ hb2 hn1⟩
    · obtain ⟨u1, u2, u3⟩ := dg4 d hn
      refine ⟨lt_of_lt_of_le u3 ex2, ?_⟩
      rw [u1]
      simp only [optLT]
      simp only [decide_eq_true_eq]
      exact lt_of_lt_of_le (hcand c hcmem) hn1
  · intro e he
    rcases List.mem_append.mp he with hk | hn
    · obtain ⟨hmem, _⟩ := List.mem_filter.mp hk
      obtain ⟨hb1, hb2⟩ := hexp e hmem
      exact ⟨lt_of_lt_of_le hb1 hn1, optLT_mono _ _ _ hb2 hn1⟩
    · obtain ⟨u1, u2, u3⟩ := ex4 e hn
      refine ⟨u3, ?_⟩
      rw [u1]
      simp only [optLT]
      simp only [decide_eq_true_eq]
      exact lt_of_lt_of_le (hcand c hcmem) hn1
  · intro d hd hdc hmem
    rcases List.mem_append.mp hmem with hk | hn
    · have hf := (List.mem_filter.mp hk).2
      rw [hdc] at hf
      simp at hf
    · obtain ⟨u1, u2, u3⟩ := dg4 d hn
      have hlt := (hdeg d hd).1
      have : db.nextId ≤ ce.2.2 := le_trans sk2 ce2
      omega
  · intro e he hec hmem
    rcases List.mem_append.mp hmem with hk | hn
    · have hf := (List.mem_filter.mp hk).2
      rw [hec] at hf
      simp at hf
    · obtain ⟨u1, u2, u3⟩ := ex4 e hn
      have hlt := (hexp e he).1
      have : db.nextId ≤ dg.2.2 := le_trans sk2 (le_trans ce2 dg2)
      omega

theorem upsertStaged_new_red (db : DB) (j : RecordJson) (nm : String)
    (hpre : db.candidates.find? (fun x => x.name == nm) = none) :
    upsertStaged db j nm =
      { candidates := db.candidates ++
          [{ id := db.nextId, name := nm, email := j.email, phone := j.phone,
             linkedin_url := j.linkedin_url,
             total_experience_years := j.total_experience_years, city := j.city,
             skillIds := (((resolveNames db.skills (db.nextId + 1) j.skills).1.map
               (fun r => r.id)).dedup),
             certIds := (((resolveNames db.certifications
               (resolveNames db.skills (db.nextId + 1) j.skills).2.2 j.certifications).1.map
               (fun r => r.id)).dedup) }],
        skills := (resolveNames db.skills (db.nextId + 1) j.skills).2.1,
        certifications := (resolveNames db.certifications
          (resolveNames db.skills (db.nextId + 1) j.skills).2.2 j.certifications).2.1,
        companies := (buildExperiences db.companies
          (buildDegrees db.colleges
            (resolveNames db.certifications
              (resolveNames db.skills (db.nextId + 1) j.skills).2.2 j.certifications).2.2
            db.nextId j.degrees).2.2 db.nextId j.experience).2.1,
        colleges := (buildDegrees db.colleges
          (resolveNames db.certifications
            (resolveNames db.skills (db.nextId + 1) j.skills).2.2 j.certifications).2.2
          db.nextId j.degrees).2.1,
        degrees := db.degrees
          ++ (buildDegrees db.colleges
            (resolveNames db.certifications
              (resolveNames db.skills (db.nextId + 1) j.skills).2.2 j.certifications).2.2
            db.nextId j.degrees).1,
        experiences := db.experiences
          ++ (buildExperiences db.companies
            (buildDegrees db.colleges
              (resolveNames db.certifications
                (resolveNames db.skills (db.nextId + 1) j.skills).2.2 j.certifications).2.2
              db.nextId j.degrees).2.2 db.nextId j.experience).1,
        nextId := (buildExperiences db.companies
          (buildDegrees db.colleges
            (resolveNames db.certifications
              (resolveNames db.skills (db.nextId + 1) j.skills).2.2 j.certifications).2.2
            db.nextId j.degrees).2.2 db.nextId j.experience).2.2 } := by
  simp only [upsertStaged, hpre]

theorem upsertStaged_spec_new (db : DB) (j : RecordJson) (nm : String) (hwf : WFdb db)
    (hpre : db.candidates.find? (fun x => x.name == nm) = none) :
    candView (upsertStaged db j nm) nm = some (recordView j)
    ∧ WFdb (upsertStaged db j nm) := by
  obtain ⟨hwsk, hwce, hwco, hwcl, hcand, hcidnd, hcnmnd, hdeg, hexp⟩ := hwf
  obtain ⟨sk1, sk2, ⟨sksuf, hsksuf⟩, sk4, sk5⟩ :=
    resolveNames_spec j.skills db.skills (db.nextId + 1)
      (WFt_mono _ _ _ hwsk (Nat.le_succ _))
  obtain ⟨ce1, ce2, ⟨cesuf, hcesuf⟩, ce4, ce5⟩ :=
    resolveNames_spec j.certifications db.certifications
      (resolveNames db.skills (db.nextId + 1) j.skills).2.2
      (WFt_mono _ _ _ hwce (le_trans (Nat.le_succ _) sk2))
  obtain ⟨dg1, dg2, ⟨dgsuf, hdgsuf⟩, dg4, dg5⟩ :=
    buildDegrees_spec j.degrees db.nextId db.colleges
      (resolveNames db.certifications
        (resolveNames db.skills (db.nextId + 1) j.skills).2.2 j.certifications).2.2
      (WFt_mono _ _ _ hwcl (le_trans (Nat.le_succ _) (le_trans sk2 ce2)))
  obtain ⟨ex1, ex2, ⟨exsuf, hexsuf⟩, ex4, ex5⟩ :=
    buildExperiences_spec j.experience db.nextId db.companies
      (buildDegrees db.colleges
        (resolveNames db.certifications
          (resolveNames db.skills (db.nextId + 1) j.skills).2.2 j.certifications).2.2
        db.nextId j.degrees).2.2
      (WFt_mono _ _ _ hwco (le_trans (Nat.le_succ _) (le_trans sk2 (le_trans ce2 dg2))))
  rw [upsertStaged_new_red db j nm hpre]
  set sk := resolveNames db.skills (db.nextId + 1) j.skills with hskdef
  set ce := resolveNames db.certifications sk.2.2 j.certifications with hcedef
  set dg := buildDegrees db.colleges ce.2.2 db.nextId j.degrees with hdgdef
  set ex := buildExperiences db.companies dg.2.2 db.nextId j.experience with hexdef
  set cnd : CandidateRow := ({ id := db.nextId, name := nm, email := j.email, phone := j.phone, linkedin_url := j.linkedin_url, total_experience_years := j.total_experience_years, city := j.city, skillIds := (sk.1.map (fun r => r.id)).dedup, certIds := (ce.1.map (fun r => r.id)).dedup } : CandidateRow) with hcnddef
  have hcndnm : cnd.name = nm := rfl
  have hn1 : db.nextId + 1 ≤ ex.2.2 := le_trans sk2 (le_trans ce2 (le_trans dg2 ex2))
  have hfind2 : (db.candidates ++ [cnd]).find? (fun x => x.name == nm) = some cnd := by
    rw [List.find?_append, hpre]
    simp
  have hskills : ((sk.1.map (fun r => r.id)).dedup).map (fun i => refName sk.2.1 i)
      = (recordSkillNames j).map some := by
    have h := map_refName_dedup sk.2.1 sk1.2.1 sk1.2.2 sk.1 sk5
    rw [sk4] at h
    exact h
  have hcerts : ((ce.1.map (fun r => r.id)).dedup).map (fun i => refName ce.2.1 i)
      = (recordCertNames j).map some := by
    have h := map_refName_dedup ce.2.1 ce1.2.1 ce1.2.2 ce.1 ce5
    rw [ce4] at h
    exact h
  have hkeptd : db.degrees.filter (fun d => d.candidate_id == some db.nextId) = [] := by
    rw [List.filter_eq_nil_iff]
    intro d hd
    rw [optLT_ne_beq _ _ (hdeg d hd).2]
    simp
  have hkepte : db.experiences.filter (fun e => e.candidate_id == some db.nextId) = [] := by
    rw [List.filter_eq_nil_iff]
    intro e he
    rw [optLT_ne_beq _ _ (hexp e he).2]
    simp
  have hnewd : dg.1.filter (fun d => d.candidate_id == some db.nextId) = dg.1 :=
    List.filter_eq_self.mpr (fun row hrow => by rw [(dg4 row hrow).1]; simp)
  have hnewe : ex.1.filter (fun e => e.candidate_id == some db.nextId) = ex.1 :=
    List.filter_eq_self.mpr (fun row hrow => by rw [(ex4 row hrow).1]; simp)
  have hwrapdeg : (recordDegreeViews j).map (fun v => (v.1, v.2.1, some v.2.2))
      = j.degrees.filterMap (fun d =>
          match d.college_name with
          | none => none
          | some cn => if cn = "" then none
                       else some (d.degree_name, d.passed_out_year, some (pyStrip cn))) := by
    unfold recordDegreeViews
    rw [List.map_filterMap]
    congr 1
    funext d
    cases hdc : d.college_name with
    | none => simp
    | some cn => by_cases hcn : cn = "" <;> simp [hcn]
  have hwrapexp : (recordExpViews j).map (fun v => (v.1, v.2.1, v.2.2.1, some v.2.2.2))
      = j.experience.filterMap (fun e =>
          match e.company_name with
          | none => none
          | some cn => if cn = "" then none
                       else some (e.total_years, e.role, e.description, some (pyStrip cn))) := by
    unfold recordExpViews
    rw [List.map_filterMap]
    congr 1
    funext e
    cases hdc : e.company_name with
    | none => simp
    | some cn => by_cases hcn : cn = "" <;> simp [hcn]
  refine ⟨?_, ?_, ?_, ?_, ?_, ?_, ?_, ?_, ?_, ?_⟩
  · simp only [candView]
    rw [hfind2]
    refine congrArg some ?_
    simp only [recordView, candidateDegreeViews, candidateExpViews]
    rw [List.filter_append, hkeptd, hnewd, List.nil_append,
      List.filter_append, hkepte, hnewe, List.nil_append]
    rw [dg5, ex5, ← hwrapdeg, ← hwrapexp]
    rw [hskills, hcerts]
  · exact WFt_mono _ _ _ sk1 (le_trans ce2 (le_trans dg2 ex2))
  · exact WFt_mono _ _ _ ce1 (le_trans dg2 ex2)
  · exact ex1
  · exact WFt_mono _ _ _ dg1 ex2
  · intro y hy
    rcases List.mem_append.mp hy with hm | hm
    · exact lt_of_lt_of_le (hcand y hm) (le_trans (Nat.le_succ _) hn1)
    · rcases List.mem_singleton.mp hm with rfl
      exact lt_of_lt_of_le (Nat.lt_succ_self _) hn1
  · rw [List.map_append]
    apply List.Nodup.append hcidnd (by simp)
    intro x hx hy
    have hxn : x = db.nextId := by simpa using hy
    rcases List.mem_map.mp hx with ⟨y, hym, hyid⟩
    have : x < db.nextId := hyid ▸ hcand y hym
    rw [hxn] at this
    exact lt_irrefl _ this
  · rw [List.map_append]
    apply List.Nodup.append hcnmnd (by simp)
    intro x hx hy
    have hxn : x = nm := by simpa using hy
    rcases List.mem_map.mp hx with ⟨y, hym, hynm⟩
    have := List.find?_eq_none.mp hpre y hym
    simp at this
    exact this (by rw [hynm, hxn])
  · intro d hd
    rcases List.mem_append.mp hd with hm | hm
    · obtain ⟨hb1, hb2⟩ := hdeg d hm
      exact ⟨lt_of_lt_of_le hb1 (le_trans (Nat.le_succ _) hn1),
        optLT_mono _ _ _ hb2 (le_trans (Nat.le_succ _) hn1)⟩
    · obtain ⟨u1, u2, u3⟩ := dg4 d hm
      refine ⟨lt_of_lt_of_le u3 ex2, ?_⟩
      rw [u1]
      simp only [optLT, decide_eq_true_eq]
      exact lt_of_lt_of_le (Nat.lt_succ_self _) hn1
  · intro e he
    rcases List.mem_append.mp he with hm | hm
    · obtain ⟨hb1, hb2⟩ := hexp e hm
      exact ⟨lt_of_lt_of_le hb1 (le_trans (Nat.le_succ _) hn1),
        optLT_mono _ _ _ hb2 (le_trans (Nat.le_succ _) hn1)⟩
    · obtain ⟨u1, u2, u3⟩ := ex4 e hm
      refine ⟨u3, ?_⟩
      rw [u1]
      simp only [optLT, decide_eq_true_eq]
      exact lt_of_lt_of_le (Nat.lt_succ_self _) hn1

theorem upsertBody_ok (db : DB) (j : RecordJson) (nm : String)
    (hwf : WFdb db) (hn : j.name = some nm) (hne : ¬ nm = "") :
    upsertBody db j = Except.ok (upsertStaged db j nm)
    ∧ candView (upsertStaged db j nm) nm = some (recordView j)
    ∧ WFdb (upsertStaged db j nm) := by
  have hmain : candView (upsertStaged db j nm) nm = some (recordView j)
      ∧ WFdb (upsertStaged db j nm) := by
    cases hpre : db.candidates.find? (fun x => x.name == nm) with
    | some c =>
      obtain ⟨h1, h2, _⟩ := upsertStaged_spec_found db j nm hwf c hpre
      exact ⟨h1, h2⟩
    | none => exact upsertStaged_spec_new db j nm hwf hpre
  exact ⟨by simp [upsertBody, hn, hne], hmain.1, hmain.2⟩

/-- Claim C7: for a record naming an existing candidate, a successful upsert
fully replaces the relationship sets — the candidate keeps its id, its skill
and certification associations become exactly the record's (trimmed,
deduplicated) lists, its degree and experience rows are exactly those rebuilt
from the record's entries (resolved to college/company names), and none of
the previously owned Degree or Experience rows survives. -/
theorem upsert_replaces_relationship_sets (db : DB) (j : RecordJson) (nm : String)
    (c : CandidateRow) (hwf : WFdb db) (hn : j.name = some nm) (hne : ¬ nm = "")
    (hc : db.candidates.find? (fun x => x.name == nm) = some c) :
    ∃ staged c', upsertBody db j = Except.ok staged
      ∧ staged.candidates.find? (fun x => x.name == nm) = some c'
      ∧ c'.id = c.id
      ∧ c'.skillIds.map (fun i => refName staged.skills i) = (recordSkillNames j).map some
      ∧ c'.certIds.map (fun i => refName staged.certifications i)
          = (recordCertNames j).map some
      ∧ candidateDegreeViews staged c.id
          = (recordDegreeViews j).map (fun v => (v.1, v.2.1, some v.2.2))
      ∧ candidateExpViews staged c.id
          = (recordExpViews j).map (fun v => (v.1, v.2.1, v.2.2.1, some v.2.2.2))
      ∧ (∀ d ∈ db.degrees, d.candidate_id = some c.id → d ∉ staged.degrees)
      ∧ (∀ e ∈ db.experiences, e.candidate_id = some c.id → e ∉ staged.experiences) := by
  obtain ⟨hcv, hwf2, ⟨c', hfind, hid, hnm2⟩, holdd, holde⟩ :=
    upsertStaged_spec_found db j nm hwf c hc
  have hbody : upsertBody db j = Except.ok (upsertStaged db j nm) := by
    simp [upsertBody, hn, hne]
  simp only [candView, hfind, Option.map_some'] at hcv
  have hv2 := Option.some.inj hcv
  have hskc := congrArg (fun t => t.2.1) hv2
  have hcec := congrArg (fun t => t.2.2.1) hv2
  have hdgc := congrArg (fun t => t.2.2.2.1) hv2
  have hexc := congrArg (fun t => t.2.2.2.2) hv2
  simp only [recordView] at hskc hcec hdgc hexc
  rw [hid] at hdgc hexc
  exact ⟨upsertStaged db j nm, c', hbody, hfind, hid, hskc, hcec, hdgc, hexc, holdd, holde⟩

/-- Claim C8: upserting a record with a non-empty name twice in succession is
idempotent — both runs commit exactly once, and the candidate's scalar fields
and its skill, certification, degree and experience relationship sets after
the second run equal those after the first (both equal the view determined by
the record alone). -/
theorem upsert_idempotent (db : DB) (j : RecordJson) (nm : String)
    (hwf : WFdb db) (hn : j.name = some nm) (hne : ¬ nm = "") :
    ∃ db1 db2,
      insert_json_data_into_db true db j = (Except.ok (), db1, [TxEvent.commit])
      ∧ insert_json_data_into_db true db1 j = (Except.ok (), db2, [TxEvent.commit])
      ∧ candView db1 nm = some (recordView j)
      ∧ candView db2 nm = candView db1 nm := by
  obtain ⟨hb1, hcv1, hwf1⟩ := upsertBody_ok db j nm hwf hn hne
  obtain ⟨hb2, hcv2, hwf2⟩ := upsertBody_ok (upsertStaged db j nm) j nm hwf1 hn hne
  refine ⟨upsertStaged db j nm, upsertStaged (upsertStaged db j nm) j nm, ?_, ?_, hcv1, ?_⟩
  · simp [insert_json_data_into_db, hb1]
  · simp [insert_json_data_into_db, hb2]
  · rw [hcv2, hcv1]


/-- Witness for C7: "Ann" exists with skill "Cobol"; the record lists only
"Python". -/
theorem upsert_replaces_relationship_sets_witness :
    ∃ staged c', upsertBody db7 j7 = Except.ok staged
      ∧ staged.candidates.find? (fun x => x.name == "Ann") = some c'
      ∧ c'.id = (⟨0, "Ann", none, none, none, none, none, [1], []⟩ : CandidateRow).id
      ∧ c'.skillIds.map (fun i => refName staged.skills i) = (recordSkillNames j7).map some
      ∧ c'.certIds.map (fun i => refName staged.certifications i)
          = (recordCertNames j7).map some
      ∧ candidateDegreeViews staged (⟨0, "Ann", none, none, none, none, none, [1], []⟩ : CandidateRow).id
          = (recordDegreeViews j7).map (fun v => (v.1, v.2.1, some v.2.2))
      ∧ candidateExpViews staged (⟨0, "Ann", none, none, none, none, none, [1], []⟩ : CandidateRow).id
          = (recordExpViews j7).map (fun v => (v.1, v.2.1, v.2.2.1, some v.2.2.2))
      ∧ (∀ d ∈ db7.degrees, d.candidate_id = some (⟨0, "Ann", none, none, none, none, none, [1], []⟩ : CandidateRow).id → d ∉ staged.degrees)
      ∧ (∀ e ∈ db7.experiences, e.candidate_id = some (⟨0, "Ann", none, none, none, none, none, [1], []⟩ : CandidateRow).id → e ∉ staged.experiences) :=
  upsert_replaces_relationship_sets db7 j7 "Ann"
    ⟨0, "Ann", none, none, none, none, none, [1], []⟩
    (by unfold WFdb WFt; decide) rfl (by decide) (by decide)

/-- Witness for C8: the record for "Ann" upserted twice into the empty
database. -/
theorem upsert_idempotent_witness :
    ∃ db1 db2,
      insert_json_data_into_db true DB.empty recA = (Except.ok (), db1, [TxEvent.commit])
      ∧ insert_json_data_into_db true db1 recA = (Except.ok (), db2, [TxEvent.commit])
      ∧ candView db1 "Ann" = some (recordView recA)
      ∧ candView db2 "Ann" = candView db1 "Ann" :=
  upsert_idempotent DB.empty recA "Ann" (by unfold WFdb WFt; decide) rfl (by decide)
